import Mathlib

/-!
# Verification of the eagle session store

A shallow embedding of `src/server/app/session_store.py`: the partitioned
key-value table (partition key + sort key), the in-process session cache,
the session/message CRUD operations, usage recording and summary, and the
subscription usage counters, together with theorems checking the
specification's claims about them.

Strings from the Python source are modelled as `List Char`; machine
timestamps as `Nat` (seconds, or milliseconds where the source uses
milliseconds); decimal currency values as `Rat`.
-/

set_option autoImplicit false

namespace Eagle

/-- Python strings, modelled as lists of characters. -/
abbrev Str := List Char

/-- Attribute values stored in table items: strings, integers, decimal
numbers (`Decimal` in the source), and lists of strings (parsed structured
content). -/
inductive Val where
  | str : Str → Val
  | num : Int → Val
  | dec : Rat → Val
  | strs : List Str → Val
deriving DecidableEq

/-- A table item is an association list from attribute names to values,
mirroring the Python dicts passed to `put_item`. -/
abbrev Item := List (Str × Val)

/-- Look up an attribute of an item (`item.get(k)`). -/
def getAttr (k : Str) : Item → Option Val
  | [] => none
  | (k', v) :: rest => if k' = k then some v else getAttr k rest

/-- Set an attribute of an item, replacing an existing binding in place. -/
def setAttr (k : Str) (v : Val) : Item → Item
  | [] => [(k, v)]
  | (k', v') :: rest => if k' = k then (k, v) :: rest else (k', v') :: setAttr k v rest

-- ── Session key helpers (`build_session_key` / `parse_session_key`) ──

/-- `str.split("#")` from the source, on character lists. -/
def splitOnHash : Str → List Str
  | [] => [[]]
  | c :: rest =>
    if c = '#' then [] :: splitOnHash rest
    else
      match splitOnHash rest with
      | p :: ps => (c :: p) :: ps
      | [] => [[c]]

/-- `build_session_key`: the f-string `SESSION#tenant#user#session`. -/
def build_session_key (tenant_id user_id session_id : Str) : Str :=
  "SESSION".toList ++ '#' :: (tenant_id ++ '#' :: (user_id ++ '#' :: session_id))

/-- Result of `parse_session_key`: either the three components
(the dict with `tenant_id`, `user_id`, `session_id`) or the fallback dict
holding only the raw key. -/
inductive ParsedKey where
  | full : Str → Str → Str → ParsedKey
  | only : Str → ParsedKey
deriving DecidableEq

/-- `parse_session_key`: split on `#`; when there are at least four parts
and the first is `SESSION`, return parts 1..3, else the fallback. -/
def parse_session_key (key : Str) : ParsedKey :=
  match splitOnHash key with
  | p0 :: p1 :: p2 :: p3 :: _ =>
    if p0 = "SESSION".toList then ParsedKey.full p1 p2 p3 else ParsedKey.only key
  | _ => ParsedKey.only key

-- ── The partitioned table (DynamoDB adapter) ─────────────────────────

/-- One stored row: partition key, sort key, attributes. -/
structure Entry where
  pk : Str
  sk : Str
  attrs : Item
deriving DecidableEq

/-- The whole table. -/
abbrev Table := List Entry

/-- `table.put_item(Item=...)`: replace the row with the same composite key
in place, or add a new row. -/
def putItem (pk sk : Str) (it : Item) : Table → Table
  | [] => [⟨pk, sk, it⟩]
  | e :: rest =>
    if e.pk = pk ∧ e.sk = sk then ⟨pk, sk, it⟩ :: rest
    else e :: putItem pk sk it rest

/-- `table.get_item(Key=...)`: the attributes of the row with this key. -/
def getItem (pk sk : Str) : Table → Option Item
  | [] => none
  | e :: rest => if e.pk = pk ∧ e.sk = sk then some e.attrs else getItem pk sk rest

/-- One `SET` action of an `UpdateExpression`: either a plain assignment
`#a = :v`, or the atomic counter form
`a = if_not_exists(a, :default) + :delta`. -/
inductive UpdOp where
  | set : Val → UpdOp
  | incr : Int → Int → UpdOp
deriving DecidableEq

/-- Apply one `SET` action to an item. -/
def applyOp (it : Item) (k : Str) (op : UpdOp) : Item :=
  match op with
  | .set v => setAttr k v it
  | .incr d delta =>
    match getAttr k it with
    | some (Val.num n) => setAttr k (Val.num (n + delta)) it
    | _ => setAttr k (Val.num (d + delta)) it

/-- Apply the `SET` actions of an update expression, left to right. -/
def applyOps (it : Item) (ops : List (Str × UpdOp)) : Item :=
  ops.foldl (fun acc kv => applyOp acc kv.1 kv.2) it

/-- `table.update_item(Key=..., UpdateExpression="SET ...")`: update the
row in place if present; otherwise (DynamoDB upsert) create it with the key
attributes plus the applied actions. Returns the new table and, as
`ReturnValues="ALL_NEW"` does, the item after the update. -/
def updateItem (pk sk : Str) (ops : List (Str × UpdOp)) : Table → Table × Item
  | [] =>
    let it := applyOps [("PK".toList, Val.str pk), ("SK".toList, Val.str sk)] ops
    ([⟨pk, sk, it⟩], it)
  | e :: rest =>
    if e.pk = pk ∧ e.sk = sk then
      let it := applyOps e.attrs ops
      (⟨pk, sk, it⟩ :: rest, it)
    else
      let r := updateItem pk sk ops rest
      (e :: r.1, r.2)

/-- `table.delete_item(Key=...)`. -/
def deleteItem (pk sk : Str) : Table → Table
  | [] => []
  | e :: rest => if e.pk = pk ∧ e.sk = sk then rest else e :: deleteItem pk sk rest

/-- Python string `<` (lexicographic by code point), which is also the
order DynamoDB uses on string sort keys. -/
def ltStr : Str → Str → Bool
  | [], [] => false
  | [], _ :: _ => true
  | _ :: _, [] => false
  | a :: as, b :: bs => if a < b then true else if b < a then false else ltStr as bs

/-- `a <= b` on sort keys. -/
def leStr (a b : Str) : Bool := ! ltStr b a

/-- `a.startswith(b)` / `begins_with(a, pre)`. -/
def isPre : Str → Str → Bool
  | [], _ => true
  | _ :: _, [] => false
  | a :: as, b :: bs => a == b && isPre as bs

/-- Insert a row into a sort-key-ascending list. -/
def insertAsc (e : Entry) : List Entry → List Entry
  | [] => [e]
  | f :: fs => if leStr e.sk f.sk then e :: f :: fs else f :: insertAsc e fs

/-- Sort rows ascending by sort key, as a DynamoDB query with
`ScanIndexForward=True` returns them. -/
def sortAsc (l : List Entry) : List Entry := l.foldr insertAsc []

/-- `query(KeyConditionExpression="PK = :pk AND begins_with(SK, :pre)",
ScanIndexForward=True, Limit=limit)`. -/
def queryPre (pk pre : Str) (limit : Nat) (t : Table) : List Entry :=
  (sortAsc (t.filter (fun e => e.pk == pk && isPre pre e.sk))).take limit

/-- `query(KeyConditionExpression="PK = :pk AND SK < :before",
ScanIndexForward=True, Limit=limit)`. -/
def queryBefore (pk bound : Str) (limit : Nat) (t : Table) : List Entry :=
  (sortAsc (t.filter (fun e => e.pk == pk && ltStr e.sk bound))).take limit

/-- `query(KeyConditionExpression="PK = :pk AND SK >= :start")`. -/
def queryFrom (pk start : Str) (t : Table) : List Entry :=
  sortAsc (t.filter (fun e => e.pk == pk && leStr start e.sk))

/-- `_serialize_item` on one value: a `Decimal` becomes an int when it has
no fractional part and stays a (now plain) decimal number otherwise. -/
def serializeVal : Val → Val
  | .dec q => if q.den = 1 then .num q.num else .dec q
  | v => v

/-- `_serialize_item`: convert every attribute value. -/
def serializeItem (it : Item) : Item :=
  it.map (fun kv => (kv.1, serializeVal kv.2))

-- ── The session store state: table plus in-memory cache ──────────────

/-- `CACHE_DURATION_SECONDS = 300`. -/
def CACHE_DURATION_SECONDS : Nat := 300

/-- `SESSION_TTL_DAYS` (default 30). -/
def SESSION_TTL_DAYS : Nat := 30

/-- The module state: the DynamoDB table plus the in-memory session cache
(`_session_cache` and `_cache_ttl`, which the source always updates in
lockstep, merged into one map from session id to record and expiry). -/
structure Store where
  table : Table
  cache : List (Str × Item × Nat)

/-- Look up a session id in the cache. -/
def cacheLookup (sid : Str) : List (Str × Item × Nat) → Option (Item × Nat)
  | [] => none
  | (k, v) :: rest => if k = sid then some v else cacheLookup sid rest

/-- `_update_cache`: store the record and refresh the expiry. -/
def cacheUpdate (sid : Str) (it : Item) (now : Nat) :
    List (Str × Item × Nat) → List (Str × Item × Nat)
  | [] => [(sid, it, now + CACHE_DURATION_SECONDS)]
  | (k, v) :: rest =>
    if k = sid then (sid, it, now + CACHE_DURATION_SECONDS) :: rest
    else (k, v) :: cacheUpdate sid it now rest

/-- `_invalidate_cache`. -/
def cacheInvalidate (sid : Str) : List (Str × Item × Nat) → List (Str × Item × Nat)
  | [] => []
  | (k, v) :: rest => if k = sid then rest else (k, v) :: cacheInvalidate sid rest

/-- `_is_cache_valid`: the entry exists and the current time is strictly
before its expiry. -/
def isCacheValid (sid : Str) (now : Nat) (st : Store) : Bool :=
  match cacheLookup sid st.cache with
  | some (_, exp) => now < exp
  | none => false

-- ── Session CRUD ─────────────────────────────────────────────────────

/-- `f"SESSION#{tenant_id}#{user_id}"`. -/
def sessionPK (tenant user : Str) : Str :=
  "SESSION".toList ++ '#' :: tenant ++ '#' :: user

/-- `f"SESSION#{session_id}"`. -/
def sessionSK (sid : Str) : Str := "SESSION".toList ++ '#' :: sid

/-- `f"MSG#{session_id}#"`, the message sort-key prefix of a session. -/
def msgPre (sid : Str) : Str := "MSG".toList ++ '#' :: sid ++ ['#']

/-- `f"MSG#{session_id}#{message_id}"`. -/
def msgSK (sid mid : Str) : Str := msgPre sid ++ mid

/-- Decimal rendering of a machine timestamp. -/
def natStr (n : Nat) : Str := (toString n).toList

/-- `generate_session_id`: `s-<epochMillis>-<random8hex>`; the random hex
digits are an input of the embedding. -/
def generate_session_id (nowMs : Nat) (rand : Str) : Str :=
  's' :: '-' :: natStr nowMs ++ '-' :: rand

/-- `if not session_id: session_id = generate_session_id(user_id)`: the
session id `create_session` uses (a missing or empty argument is falsy). -/
def chosenSid (session_id : Option Str) (nowMs : Nat) (rand : Str) : Str :=
  match session_id with
  | some s => if s = [] then generate_session_id nowMs rand else s
  | none => generate_session_id nowMs rand

/-- `create_session`. `storeOk` is false when `table.put_item` raises a
store error (`ClientError`/`BotoCoreError`); the clock (`now` in seconds,
`nowMs` in milliseconds) and the generated random id suffix are inputs.
Returns the serialized record and the new state. -/
def create_session (storeOk : Bool) (tenant user : Str)
    (session_id : Option Str) (title : Option Str) (metadata : Option Val)
    (now nowMs : Nat) (rand : Str) (st : Store) : Item × Store :=
  let sid := chosenSid session_id nowMs rand
  let titleVal :=
    match title with
    | some t => if t = [] then "New Conversation".toList else t
    | none => "New Conversation".toList
  let session : Item :=
    [ ("PK".toList, Val.str (sessionPK tenant user)),
      ("SK".toList, Val.str (sessionSK sid)),
      ("session_id".toList, Val.str sid),
      ("tenant_id".toList, Val.str tenant),
      ("user_id".toList, Val.str user),
      ("title".toList, Val.str titleVal),
      ("created_at".toList, Val.num now),
      ("updated_at".toList, Val.num now),
      ("message_count".toList, Val.num 0),
      ("total_tokens".toList, Val.num 0),
      ("status".toList, Val.str "active".toList),
      ("metadata".toList, metadata.getD (Val.strs [])),
      ("ttl".toList, Val.num (now + SESSION_TTL_DAYS * 86400)),
      ("GSI1PK".toList, Val.str ("TENANT".toList ++ '#' :: tenant)),
      ("GSI1SK".toList, Val.str ("SESSION".toList ++ '#' :: natStr now)) ]
  if storeOk then
    let table := putItem (sessionPK tenant user) (sessionSK sid) session st.table
    (serializeItem session, ⟨table, cacheUpdate sid session now st.cache⟩)
  else
    -- store failure: fall back to in-memory only
    (serializeItem session, ⟨st.table, cacheUpdate sid session now st.cache⟩)

/-- `get_session`: cache first; on miss a store read that refreshes the
cache; on store failure (`storeOk = false`) fall back to any cached entry
(even an expired one). -/
def get_session (storeOk : Bool) (sid tenant user : Str) (now : Nat)
    (st : Store) : Option Item × Store :=
  if isCacheValid sid now st then
    (Option.map (fun v => serializeItem v.1) (cacheLookup sid st.cache), st)
  else if storeOk then
    match getItem (sessionPK tenant user) (sessionSK sid) st.table with
    | some it => (some (serializeItem it), ⟨st.table, cacheUpdate sid it now st.cache⟩)
    | none => (none, st)
  else
    match cacheLookup sid st.cache with
    | some v => (some (serializeItem v.1), st)
    | none => (none, st)

/-- The identity attributes that `update_session` refuses to overwrite. -/
def identityFields : List Str :=
  ["PK".toList, "SK".toList, "session_id".toList, "tenant_id".toList, "user_id".toList]

/-- The `SET` actions `update_session` builds: the always-updated
`updated_at` first, then every provided non-identity field. -/
def updateSessionOps (updates : List (Str × Val)) (now : Nat) : List (Str × UpdOp) :=
  ("updated_at".toList, UpdOp.set (Val.num now)) ::
    (updates.filter (fun kv => !(identityFields.contains kv.1))).map
      (fun kv => (kv.1, UpdOp.set kv.2))

/-- `update_session`: with no updates it is `get_session`; otherwise an
atomic update of the named fields plus `updated_at`, whose `ALL_NEW` result
is written through to the cache. On store failure nothing changes and the
result is `None`. -/
def update_session (storeOk : Bool) (sid tenant user : Str)
    (updates : List (Str × Val)) (now : Nat) (st : Store) :
    Option Item × Store :=
  if updates = [] then get_session storeOk sid tenant user now st
  else if storeOk then
    let r := updateItem (sessionPK tenant user) (sessionSK sid)
      (updateSessionOps updates now) st.table
    (some (serializeItem r.2), ⟨r.1, cacheUpdate sid r.2 now st.cache⟩)
  else
    (none, st)

-- ── Message content (`str` vs `json.dumps`/`json.loads`) ────────────

/-- Message content: a plain string or a list of content blocks. Blocks are
modelled as strings (their JSON rendering), which keeps the source's
serialize/deserialize round trip observable. -/
inductive Content where
  | text : Str → Content
  | blocks : List Str → Content
deriving DecidableEq

/-- JSON string escaping of `json.dumps` restricted to the quote and
backslash characters. -/
def escapeStr : Str → Str
  | [] => []
  | c :: rest =>
    if c = '\\' ∨ c = '"' then '\\' :: c :: escapeStr rest
    else c :: escapeStr rest

/-- Render the items of a JSON array of strings (with `json.dumps`'s
default `", "` separator) followed by the closing bracket. -/
def dumpItems : List Str → Str
  | [] => [']']
  | b :: bs =>
    '"' :: escapeStr b ++ '"' ::
      (match bs with
       | [] => [']']
       | _ :: _ => ',' :: ' ' :: dumpItems bs)

/-- `json.dumps` of a list of strings. -/
def dumpBlocks (bs : List Str) : Str := '[' :: dumpItems bs

/-- One-pass parser for the arrays `dumpBlocks` produces: a stand-in for
`json.loads` sufficient for the payloads `json.dumps` writes here.
`inStr = some acc` means we are inside a string literal with the reversed
characters read so far. -/
def pList : Str → Option Str → List Str → Option (List Str)
  | [], _, _ => none
  | c :: rest, none, items =>
    if c = ']' then (if rest = [] then some items.reverse else none)
    else if c = '"' then pList rest (some []) items
    else if c = ',' ∨ c = ' ' then pList rest none items
    else none
  | c :: rest, some acc, items =>
    if c = '"' then pList rest none (acc.reverse :: items)
    else if c = '\\' then
      match rest with
      | [] => none
      | d :: rest' => pList rest' (some (d :: acc)) items
    else pList rest (some (c :: acc)) items

/-- `json.loads` on a JSON array of strings. -/
def loadBlocks : Str → Option (List Str)
  | '[' :: rest => pList rest none []
  | _ => none

/-- The serialized `content` attribute: `str(content)` for text,
`json.dumps(content)` for block lists. -/
def contentStr : Content → Str
  | .text s => s
  | .blocks bs => dumpBlocks bs

/-- The `content_type` tag: `"list"` for block lists, `"text"` otherwise. -/
def contentType : Content → Str
  | .text _ => "text".toList
  | .blocks _ => "list".toList

-- ── Message operations ───────────────────────────────────────────────

/-- `f"{int(now.timestamp() * 1000)}-{md5(str(content))[:8]}"`; the digest
prefix is an input of the embedding. -/
def message_id (nowMs : Nat) (hash8 : Str) : Str := natStr nowMs ++ '-' :: hash8

/-- The message row `add_message` builds. -/
def msgItem (sid tenant user role : Str) (content : Content)
    (metadata : Option Val) (nowMs : Nat) (hash8 : Str) : Item :=
  [ ("PK".toList, Val.str (sessionPK tenant user)),
    ("SK".toList, Val.str (msgSK sid (message_id nowMs hash8))),
    ("message_id".toList, Val.str (message_id nowMs hash8)),
    ("session_id".toList, Val.str sid),
    ("role".toList, Val.str role),
    ("content".toList, Val.str (contentStr content)),
    ("content_type".toList, Val.str (contentType content)),
    ("created_at".toList, Val.num nowMs),
    ("metadata".toList, metadata.getD (Val.strs [])) ]

/-- The `SET` actions of `add_message`'s session update:
`#upd = :upd, message_count = if_not_exists(message_count, :zero) + :one`. -/
def addMessageOps (nowMs : Nat) : List (Str × UpdOp) :=
  [ ("updated_at".toList, UpdOp.set (Val.num nowMs)),
    ("message_count".toList, UpdOp.incr 0 1) ]

/-- `add_message`. `putOk` is false when the message `put_item` raises a
store error (the session update is then skipped); `updOk` is false when
the message write succeeds but the session counter update raises. The
message dict is returned serialized in every case. -/
def add_message (putOk updOk : Bool) (sid role : Str) (content : Content)
    (tenant user : Str) (metadata : Option Val) (nowMs : Nat) (hash8 : Str)
    (tbl : Table) : Item × Table :=
  let msg := msgItem sid tenant user role content metadata nowMs hash8
  if putOk then
    let t1 := putItem (sessionPK tenant user) (msgSK sid (message_id nowMs hash8)) msg tbl
    if updOk then
      (serializeItem msg, (updateItem (sessionPK tenant user) (sessionSK sid)
        (addMessageOps nowMs) t1).1)
    else (serializeItem msg, t1)
  else (serializeItem msg, tbl)

/-- The per-item post-processing of `get_messages`: serialize, then parse
the content back to a list when `content_type == "list"` (keeping the raw
string when parsing fails). -/
def parseMsg (it : Item) : Item :=
  let msg := serializeItem it
  if getAttr "content_type".toList msg = some (Val.str "list".toList) then
    match getAttr "content".toList msg with
    | some (Val.str s) =>
      match loadBlocks s with
      | some bs => setAttr "content".toList (Val.strs bs) msg
      | none => msg
    | _ => msg
  else msg

/-- `get_messages`: without a cursor, an ascending prefix query on
`MSG#{session_id}#`; with `before`, the key condition is replaced by
`SK < f"MSG#{session_id}#{before}"`. Returns `[]` on store failure. -/
def get_messages (storeOk : Bool) (sid tenant user : Str) (limit : Nat)
    (before : Option Str) (tbl : Table) : List Item :=
  if storeOk then
    let entries :=
      match before with
      | none => queryPre (sessionPK tenant user) (msgPre sid) limit tbl
      | some b => queryBefore (sessionPK tenant user) (msgSK sid b) limit tbl
    entries.map (fun e => parseMsg e.attrs)
  else []

/-- The per-call environment inputs of one `add_message` call: the clock
in milliseconds, the content-digest prefix, and the message payload. -/
structure MsgIn where
  nowMs : Nat
  hash8 : Str
  role : Str
  content : Content
  metadata : Option Val

/-- The sort key the call's message row gets. -/
def inSK (sid : Str) (i : MsgIn) : Str := msgSK sid (message_id i.nowMs i.hash8)

/-- The table row the call writes. -/
def msgEntryOf (sid tenant user : Str) (i : MsgIn) : Entry :=
  ⟨sessionPK tenant user, inSK sid i,
    msgItem sid tenant user i.role i.content i.metadata i.nowMs i.hash8⟩

/-- A sequence of fully successful `add_message` calls for one session. -/
def runAppends (sid tenant user : Str) : List MsgIn → Table → Table
  | [], tbl => tbl
  | i :: rest, tbl =>
    runAppends sid tenant user rest
      (add_message true true sid i.role i.content tenant user i.metadata
        i.nowMs i.hash8 tbl).2

/-- The record `get_messages` hands back for one appended message:
the written row, serialized and with structured content parsed back. -/
def expectedMsg (sid tenant user : Str) (i : MsgIn) : Item :=
  parseMsg (msgItem sid tenant user i.role i.content i.metadata i.nowMs i.hash8)

-- ── Usage tracking ───────────────────────────────────────────────────

/-- `item.get(k, 0)` coerced with `int(...)`. -/
def intAttr (k : Str) (it : Item) : Int :=
  match getAttr k it with
  | some (Val.num n) => n
  | _ => 0

/-- `item.get(k, 0)` coerced with `float(...)` (decimals kept exact). -/
def ratAttr (k : Str) (it : Item) : Rat :=
  match getAttr k it with
  | some (Val.dec q) => q
  | some (Val.num n) => n
  | _ => 0

/-- `item.get(k, default)` for string attributes. -/
def strAttr (k : Str) (dfl : Str) (it : Item) : Str :=
  match getAttr k it with
  | some (Val.str s) => s
  | _ => dfl

/-- The usage row `record_usage` writes (`cost_usd` stored as
`Decimal(str(cost_usd))`). The event date string and millisecond timestamp
are inputs derived from the clock. -/
def usageItem (sid tenant user : Str) (inTok outTok : Nat) (model : Str)
    (cost : Rat) (date : Str) (tsMs : Nat) : Item :=
  [ ("PK".toList, Val.str ("USAGE".toList ++ '#' :: tenant)),
    ("SK".toList, Val.str ("USAGE".toList ++ '#' :: date ++ '#' :: sid ++ '#' :: natStr tsMs)),
    ("tenant_id".toList, Val.str tenant),
    ("user_id".toList, Val.str user),
    ("session_id".toList, Val.str sid),
    ("input_tokens".toList, Val.num inTok),
    ("output_tokens".toList, Val.num outTok),
    ("total_tokens".toList, Val.num (inTok + outTok)),
    ("model".toList, Val.str model),
    ("cost_usd".toList, Val.dec cost),
    ("created_at".toList, Val.num tsMs),
    ("date".toList, Val.str date) ]

/-- `record_usage`: write the immutable usage event, then atomically add
the tokens to the session's `total_tokens`. -/
def record_usage (putOk updOk : Bool) (sid tenant user : Str)
    (inTok outTok : Nat) (model : Str) (cost : Rat) (date : Str)
    (tsMs : Nat) (tbl : Table) : Table :=
  if putOk then
    let it := usageItem sid tenant user inTok outTok model cost date tsMs
    let t1 := putItem ("USAGE".toList ++ '#' :: tenant)
      ("USAGE".toList ++ '#' :: date ++ '#' :: sid ++ '#' :: natStr tsMs) it tbl
    if updOk then
      (updateItem (sessionPK tenant user) (sessionSK sid)
        [("total_tokens".toList, UpdOp.incr 0 (inTok + outTok))] t1).1
    else t1
  else tbl

/-- Python's `round(x, 4)` on our exact decimals: round half to even at
the fourth decimal place. -/
def pyRound4 (x : Rat) : Rat :=
  let y := x * 10000
  let f : Int := y.floor
  -- the fractional part of `y` is `(y.num - f * y.den) / y.den`; compare
  -- it with one half by cross-multiplying
  let rem2 : Int := (y.num - f * y.den) * 2
  (if rem2 < (y.den : Int) then f else if (y.den : Int) < rem2 then f + 1
   else if f % 2 = 0 then f else f + 1 : Int) / 10000

/-- One per-date accumulator row of the summary:
(date, input tokens, output tokens, cost, request count). -/
abbrev DateRow := Str × Int × Int × Rat × Nat

/-- Add one usage item into the per-date map (a dict in insertion order). -/
def bumpDate (m : List DateRow) (date : Str) (i o : Int) (c : Rat) : List DateRow :=
  match m with
  | [] => [(date, i, o, c, 1)]
  | (d, vi, vo, vc, vr) :: rest =>
    if d = date then (d, vi + i, vo + o, vc + c, vr + 1) :: rest
    else (d, vi, vo, vc, vr) :: bumpDate rest date i o c

/-- Group the queried usage items by their `date` attribute
(`"unknown"` when absent). -/
def byDateOf (items : List Item) : List DateRow :=
  items.foldl
    (fun m it =>
      bumpDate m (strAttr "date".toList "unknown".toList it)
        (intAttr "input_tokens".toList it) (intAttr "output_tokens".toList it)
        (ratAttr "cost_usd".toList it))
    []

/-- Insert into a date-descending list (`sorted(..., reverse=True)`). -/
def insertDateDesc (p : DateRow) : List DateRow → List DateRow
  | [] => [p]
  | q :: qs => if leStr q.1 p.1 then p :: q :: qs else q :: insertDateDesc p qs

/-- Sort the per-date rows descending by date. -/
def sortDateDesc (l : List DateRow) : List DateRow := l.foldr insertDateDesc []

/-- The summary dict `get_usage_summary` returns. -/
structure UsageSummary where
  tenant_id : Str
  period_days : Nat
  total_input_tokens : Int
  total_output_tokens : Int
  total_tokens : Int
  total_cost_usd : Rat
  total_requests : Nat
  by_date : List DateRow
deriving DecidableEq

/-- The zeroed summary of the error path (which additionally carries an
`error` string in the source). -/
def zeroSummary (tenant : Str) (days : Nat) : UsageSummary :=
  ⟨tenant, days, 0, 0, 0, 0, 0, []⟩

/-- `get_usage_summary`: range query `SK >= f"USAGE#{start_date}"` on the
tenant's usage partition, reduced to grand totals and a per-date map.
`startDate` is the rendered `(utcnow() - timedelta(days)).strftime("%Y-%m-%d")`. -/
def get_usage_summary (storeOk : Bool) (tenant : Str) (days : Nat)
    (startDate : Str) (tbl : Table) : UsageSummary :=
  if storeOk then
    let items := (queryFrom ("USAGE".toList ++ '#' :: tenant)
      ("USAGE".toList ++ '#' :: startDate) tbl).map (fun e => e.attrs)
    let totalIn := (items.map (intAttr "input_tokens".toList)).sum
    let totalOut := (items.map (intAttr "output_tokens".toList)).sum
    { tenant_id := tenant
      period_days := days
      total_input_tokens := totalIn
      total_output_tokens := totalOut
      total_tokens := totalIn + totalOut
      total_cost_usd := pyRound4 ((items.map (ratAttr "cost_usd".toList)).sum)
      total_requests := items.length
      by_date := sortDateDesc (byDateOf items) }
  else zeroSummary tenant days

-- ── Subscription usage counters ──────────────────────────────────────

/-- `f"SUB#{tenant_id}"`. -/
def subPK (tenant : Str) : Str := "SUB".toList ++ '#' :: tenant

/-- `f"SUB#{tier}#current"`. -/
def subSK (tier : Str) : Str := "SUB".toList ++ '#' :: tier ++ "#current".toList

/-- `get_subscription_usage`: a plain `get_item` of the counter row. -/
def get_subscription_usage (storeOk : Bool) (tenant tier : Str)
    (tbl : Table) : Option Item :=
  if storeOk then (getItem (subPK tenant) (subSK tier) tbl).map serializeItem
  else none

/-- `put_subscription_usage`: a whole-row `put_item` of caller-supplied
counter values (not a delta operation). -/
def put_subscription_usage (storeOk : Bool) (tenant tier : Str)
    (daily monthly active : Int) (lastReset : Str) (tbl : Table) : Table :=
  if storeOk then
    putItem (subPK tenant) (subSK tier)
      [ ("PK".toList, Val.str (subPK tenant)),
        ("SK".toList, Val.str (subSK tier)),
        ("tenant_id".toList, Val.str tenant),
        ("tier".toList, Val.str tier),
        ("daily_usage".toList, Val.num daily),
        ("monthly_usage".toList, Val.num monthly),
        ("active_sessions".toList, Val.num active),
        ("last_reset_date".toList, Val.str lastReset) ] tbl
  else tbl

/-- The counter values an increment reads from the store
(daily, monthly, active sessions, last reset date), with the defaults a
missing row yields. -/
def readCounters (tenant tier today : Str) (tbl : Table) : Int × Int × Int × Str :=
  match get_subscription_usage true tenant tier tbl with
  | some it =>
    (intAttr "daily_usage".toList it, intAttr "monthly_usage".toList it,
      intAttr "active_sessions".toList it,
      strAttr "last_reset_date".toList today it)
  | none => (0, 0, 0, today)

/-- Write back counters with daily and monthly raised by one. -/
def writeIncremented (tenant tier : Str) (c : Int × Int × Int × Str)
    (tbl : Table) : Table :=
  put_subscription_usage true tenant tier (c.1 + 1) (c.2.1 + 1) c.2.2.1 c.2.2.2 tbl

/-- Modelled from the spec: `subscription_service.increment_usage` is not
under `src/`; §4.5 requires it to raise `dailyUsage` and `monthlyUsage` by
one after a successful interaction. It is constrained to the only
subscription-counter store operations the source offers —
`get_subscription_usage` (whole-row read) and `put_subscription_usage`
(whole-row put) — so the increment is a read of the counters followed by a
whole-row write. -/
def increment_usage (tenant tier today : Str) (tbl : Table) : Table :=
  writeIncremented tenant tier (readCounters tenant tier today tbl) tbl

/-- `n` sequential (non-overlapping) increments. -/
def incrementN (tenant tier today : Str) : Nat → Table → Table
  | 0, tbl => tbl
  | n + 1, tbl => incrementN tenant tier today n (increment_usage tenant tier today tbl)

/-- Two overlapping `increment_usage` executions in which both reads
happen before either write (a legal interleaving of two concurrent
callers, both of which succeed). -/
def twoIncrementsInterleaved (tenant tier today : Str) (tbl : Table) : Table :=
  let r1 := readCounters tenant tier today tbl
  let r2 := readCounters tenant tier today tbl
  writeIncremented tenant tier r2 (writeIncremented tenant tier r1 tbl)

/-- Same calendar month of two ISO `YYYY-MM-DD` date strings. -/
def sameMonth (a b : Str) : Bool := a.take 7 == b.take 7

/-- Modelled from the spec: the lazy quota reset of
`subscription_service.check_usage_limits` (not under `src/`). §4.5: on any
quota check, compare `lastResetDate` to the current date; if the stored
date differs, evaluate `dailyUsage` as 0; if the stored month differs,
additionally evaluate `monthlyUsage` as 0. Returns the effective
(daily, monthly) counters the check observes, reading the stored row
through `get_subscription_usage`. -/
def quota_check_counters (tenant tier today : Str) (tbl : Table) : Int × Int :=
  match get_subscription_usage true tenant tier tbl with
  | none => (0, 0)
  | some it =>
    let lastReset := strAttr "last_reset_date".toList today it
    ((if lastReset = today then intAttr "daily_usage".toList it else 0),
     (if sameMonth lastReset today then intAttr "monthly_usage".toList it else 0))

-- ── Theorems ─────────────────────────────────────────────────────────


theorem cacheLookup_update_self (sid : Str) (it : Item) (now : Nat)
    (c : List (Str × Item × Nat)) :
    cacheLookup sid (cacheUpdate sid it now c) = some (it, now + CACHE_DURATION_SECONDS) := by
  induction c with
  | nil => simp [cacheUpdate, cacheLookup]
  | cons p rest ih =>
    obtain ⟨k, v⟩ := p
    by_cases hk : k = sid
    · simp [cacheUpdate, hk, cacheLookup]
    · simp [cacheUpdate, hk, cacheLookup, ih]

theorem getItem_putItem_self (pk sk : Str) (it : Item) (t : Table) :
    getItem pk sk (putItem pk sk it t) = some it := by
  induction t with
  | nil => simp [putItem, getItem]
  | cons e rest ih =>
    by_cases hk : e.pk = pk ∧ e.sk = sk
    · simp [putItem, hk, getItem]
    · simp [putItem, hk, getItem, ih]

theorem getItem_putItem_ne (pk sk pk' sk' : Str) (it : Item) (t : Table)
    (h : ¬(pk' = pk ∧ sk' = sk)) :
    getItem pk' sk' (putItem pk sk it t) = getItem pk' sk' t := by
  induction t with
  | nil =>
    simp only [putItem, getItem]
    rw [if_neg (by rintro ⟨rfl, rfl⟩; exact h ⟨rfl, rfl⟩)]
  | cons e rest ih =>
    by_cases hk : e.pk = pk ∧ e.sk = sk
    · simp only [putItem, if_pos hk, getItem]
      rw [if_neg (by rintro ⟨rfl, rfl⟩; exact h ⟨rfl, rfl⟩),
        if_neg (by rintro ⟨h1, h2⟩; exact h ⟨h1 ▸ hk.1, h2 ▸ hk.2⟩)]
    · simp only [putItem, if_neg hk, getItem]
      by_cases he : e.pk = pk' ∧ e.sk = sk'
      · rw [if_pos he, if_pos he]
      · rw [if_neg he, if_neg he, ih]

theorem getAttr_setAttr_self (k : Str) (v : Val) (it : Item) :
    getAttr k (setAttr k v it) = some v := by
  induction it with
  | nil => simp [setAttr, getAttr]
  | cons p rest ih =>
    obtain ⟨k', v'⟩ := p
    by_cases hk : k' = k
    · simp [setAttr, hk, getAttr]
    · simp [setAttr, hk, getAttr, ih]

theorem getAttr_setAttr_ne (k k' : Str) (v : Val) (it : Item) (h : k' ≠ k) :
    getAttr k' (setAttr k v it) = getAttr k' it := by
  induction it with
  | nil =>
    simp only [setAttr, getAttr]
    rw [if_neg (fun hh : k = k' => h hh.symm)]
  | cons p rest ih =>
    obtain ⟨k0, v0⟩ := p
    simp only [setAttr]
    by_cases hk : k0 = k
    · subst hk
      rw [if_pos rfl]
      simp only [getAttr]
      rw [if_neg (fun hh : k0 = k' => h hh.symm), if_neg (fun hh : k0 = k' => h hh.symm)]
    · rw [if_neg hk]
      simp only [getAttr]
      by_cases hk' : k0 = k'
      · rw [if_pos hk', if_pos hk']
      · rw [if_neg hk', if_neg hk', ih]

theorem splitOnHash_ne_nil (l : Str) : splitOnHash l ≠ [] := by
  induction l with
  | nil => simp [splitOnHash]
  | cons c rest ih =>
    simp only [splitOnHash]
    split
    · simp
    · cases h : splitOnHash rest with
      | nil => simp
      | cons p ps => simp

theorem splitOnHash_hashFree {l : Str} (h : '#' ∉ l) : splitOnHash l = [l] := by
  induction l with
  | nil => rfl
  | cons c rest ih =>
    simp only [List.mem_cons, not_or] at h
    simp only [splitOnHash]
    rw [if_neg (fun hc => h.1 hc.symm), ih h.2]

theorem splitOnHash_append {a : Str} (b : Str) (h : '#' ∉ a) :
    splitOnHash (a ++ '#' :: b) = a :: splitOnHash b := by
  induction a with
  | nil => simp [splitOnHash]
  | cons c rest ih =>
    simp only [List.mem_cons, not_or] at h
    simp only [List.cons_append, splitOnHash]
    rw [if_neg (fun hc => h.1 hc.symm),
      show rest.append ('#' :: b) = rest ++ '#' :: b from rfl, ih h.2]

theorem splitOnHash_parts_hashFree {l : Str} {p : Str}
    (hp : p ∈ splitOnHash l) : '#' ∉ p := by
  induction l generalizing p with
  | nil =>
    simp only [splitOnHash, List.mem_singleton] at hp
    subst hp; simp
  | cons c rest ih =>
    simp only [splitOnHash] at hp
    by_cases hc : c = '#'
    · rw [if_pos hc] at hp
      rcases List.mem_cons.mp hp with h | h
      · subst h; simp
      · exact ih h
    · rw [if_neg hc] at hp
      cases hsplit : splitOnHash rest with
      | nil => exact absurd hsplit (splitOnHash_ne_nil rest)
      | cons q qs =>
        rw [hsplit] at hp
        rcases List.mem_cons.mp hp with h | h
        · subst h
          intro hmem
          rcases List.mem_cons.mp hmem with h' | h'
          · exact hc h'.symm
          · exact ih (hsplit ▸ List.mem_cons_self q qs) h'
        · exact ih (hsplit ▸ List.mem_cons_of_mem q h)

theorem SESSION_hashFree : '#' ∉ "SESSION".toList := by decide

/-- The parts produced by splitting the built key: `SESSION`, then the
splits of the tail. -/
theorem splitOnHash_build (t u s : Str) :
    splitOnHash (build_session_key t u s) =
      "SESSION".toList :: splitOnHash (t ++ '#' :: (u ++ '#' :: s)) := by
  unfold build_session_key
  exact splitOnHash_append _ SESSION_hashFree

/-- C10: for `#`-free components the composite session key round-trips
through `parse_session_key`; when any component contains `#`, the key is
mis-parsed (the parse never returns the original triple), and
`build_session_key` imposes no validation on its inputs. -/
theorem roundtrip_session_key (t u s : Str) :
    (('#' ∉ t ∧ '#' ∉ u ∧ '#' ∉ s) →
      parse_session_key (build_session_key t u s) = ParsedKey.full t u s) ∧
    (('#' ∈ t ∨ '#' ∈ u ∨ '#' ∈ s) →
      parse_session_key (build_session_key t u s) ≠ ParsedKey.full t u s) := by
  constructor
  · rintro ⟨ht, hu, hs⟩
    unfold parse_session_key
    rw [splitOnHash_build, splitOnHash_append _ ht, splitOnHash_append _ hu,
      splitOnHash_hashFree hs]
    show (if "SESSION".toList = "SESSION".toList then ParsedKey.full t u s
        else ParsedKey.only (build_session_key t u s)) = ParsedKey.full t u s
    rw [if_pos rfl]
  · intro hmem heq
    -- whatever the split of the tail is, each returned part is hash-free
    unfold parse_session_key at heq
    rw [splitOnHash_build] at heq
    cases hsplit : splitOnHash (t ++ '#' :: (u ++ '#' :: s)) with
    | nil => exact absurd hsplit (splitOnHash_ne_nil _)
    | cons q1 qs =>
      rw [hsplit] at heq
      cases qs with
      | nil =>
        exact ParsedKey.noConfusion heq
      | cons q2 qs2 =>
        cases qs2 with
        | nil =>
          exact ParsedKey.noConfusion heq
        | cons q3 qs3 =>
          have heq' : (if "SESSION".toList = "SESSION".toList then ParsedKey.full q1 q2 q3
              else ParsedKey.only (build_session_key t u s)) = ParsedKey.full t u s := heq
          rw [if_pos rfl] at heq'
          injection heq' with h1 h2 h3
          have hq1 : '#' ∉ q1 :=
            splitOnHash_parts_hashFree (hsplit ▸ List.mem_cons_self _ _)
          have hq2 : '#' ∉ q2 :=
            splitOnHash_parts_hashFree
              (hsplit ▸ List.mem_cons_of_mem _ (List.mem_cons_self _ _))
          have hq3 : '#' ∉ q3 :=
            splitOnHash_parts_hashFree
              (hsplit ▸ List.mem_cons_of_mem _
                (List.mem_cons_of_mem _ (List.mem_cons_self _ _)))
          rcases hmem with h | h | h
          · exact hq1 (h1 ▸ h)
          · exact hq2 (h2 ▸ h)
          · exact hq3 (h3 ▸ h)

/-- Witness for `roundtrip_session_key`: the round trip at concrete
hash-free components, and the mis-parse at a session id containing `#`. -/
theorem roundtrip_session_key_witness :
    parse_session_key (build_session_key "acme".toList "u1".toList "s1".toList) =
      ParsedKey.full "acme".toList "u1".toList "s1".toList ∧
    parse_session_key (build_session_key "acme".toList "u1".toList "a#b".toList) ≠
      ParsedKey.full "acme".toList "u1".toList "a#b".toList := by
  refine ⟨(roundtrip_session_key _ _ _).1 (by decide), ?_⟩
  exact (roundtrip_session_key "acme".toList "u1".toList "a#b".toList).2
    (Or.inr (Or.inr (by decide)))

/-- C7: `create_session` never fails: for every input — including when the
store write raises a store error (`storeOk = false`) — it returns a record
carrying the requested (or freshly generated) session id, the given tenant
and user, `message_count = 0`, `total_tokens = 0`, status `active`, and an
expiry of now plus the retention window; and the record is always retained
in the cache so the caller's turn is not lost. -/
theorem create_session_never_fails (storeOk : Bool) (tenant user : Str)
    (session_id title : Option Str) (metadata : Option Val)
    (now nowMs : Nat) (rand : Str) (st : Store) :
    getAttr "session_id".toList
        (create_session storeOk tenant user session_id title metadata now nowMs rand st).1 =
      some (Val.str (chosenSid session_id nowMs rand)) ∧
    getAttr "tenant_id".toList
        (create_session storeOk tenant user session_id title metadata now nowMs rand st).1 =
      some (Val.str tenant) ∧
    getAttr "user_id".toList
        (create_session storeOk tenant user session_id title metadata now nowMs rand st).1 =
      some (Val.str user) ∧
    getAttr "message_count".toList
        (create_session storeOk tenant user session_id title metadata now nowMs rand st).1 =
      some (Val.num 0) ∧
    getAttr "total_tokens".toList
        (create_session storeOk tenant user session_id title metadata now nowMs rand st).1 =
      some (Val.num 0) ∧
    getAttr "status".toList
        (create_session storeOk tenant user session_id title metadata now nowMs rand st).1 =
      some (Val.str "active".toList) ∧
    getAttr "ttl".toList
        (create_session storeOk tenant user session_id title metadata now nowMs rand st).1 =
      some (Val.num (now + SESSION_TTL_DAYS * 86400)) ∧
    (cacheLookup (chosenSid session_id nowMs rand)
        (create_session storeOk tenant user session_id title metadata now nowMs rand st).2.cache).map
        (fun v => (serializeItem v.1, v.2)) =
      some ((create_session storeOk tenant user session_id title metadata now nowMs rand st).1,
        now + CACHE_DURATION_SECONDS) := by
  cases storeOk <;>
    refine ⟨rfl, rfl, rfl, rfl, rfl, rfl, rfl, ?_⟩ <;>
    · show (cacheLookup _ (cacheUpdate _ _ now st.cache)).map _ = _
      rw [cacheLookup_update_self]
      rfl

/-- C5: within the cache validity window, `get_session` called with the
cached record's session id returns that record for every tenant and user
argument: the cache lookup is keyed by session id alone and a cache hit
never compares the tenant or user against the cached record. -/
theorem get_session_cache_ignores_identity (storeOk : Bool)
    (sid t1 u1 t2 u2 : Str) (now exp : Nat) (it : Item) (st : Store)
    (hc : cacheLookup sid st.cache = some (it, exp)) (hv : now < exp) :
    (get_session storeOk sid t1 u1 now st).1 = some (serializeItem it) ∧
    get_session storeOk sid t1 u1 now st = get_session storeOk sid t2 u2 now st := by
  have hvalid : isCacheValid sid now st = true := by
    simp [isCacheValid, hc, hv]
  refine ⟨?_, ?_⟩ <;> simp [get_session, hvalid, hc]

/-- Witness for `get_session_cache_ignores_identity`: a record cached for
tenant `acme` is served to a caller passing tenant `other`. -/
theorem get_session_cache_ignores_identity_witness :
    (get_session true "s1".toList "other".toList "mallory".toList 100
      ⟨[], [("s1".toList, [("tenant_id".toList, Val.str "acme".toList)], 400)]⟩).1 =
      some (serializeItem [("tenant_id".toList, Val.str "acme".toList)]) :=
  (get_session_cache_ignores_identity true "s1".toList "other".toList
    "mallory".toList "x".toList "y".toList 100 400
    [("tenant_id".toList, Val.str "acme".toList)]
    ⟨[], [("s1".toList, [("tenant_id".toList, Val.str "acme".toList)], 400)]⟩
    (by rfl) (by decide)).1

/-- C4 (spec-modelled): a quota check on a counter row whose stored
`last_reset_date` differs from the current date observes `dailyUsage = 0`,
and whenever the stored month equals the current month the observed
`monthlyUsage` is the stored value, unchanged. -/
theorem quota_reset_on_new_day (tenant tier today : Str) (tbl : Table)
    (it : Item) (hrow : get_subscription_usage true tenant tier tbl = some it)
    (hday : strAttr "last_reset_date".toList today it ≠ today) :
    (quota_check_counters tenant tier today tbl).1 = 0 ∧
    (sameMonth (strAttr "last_reset_date".toList today it) today = true →
      (quota_check_counters tenant tier today tbl).2 =
        intAttr "monthly_usage".toList it) := by
  constructor
  · simp only [quota_check_counters, hrow]
    rw [if_neg hday]
  · intro hm
    simp only [quota_check_counters, hrow]
    rw [if_pos hm]

/-- Witness for `quota_reset_on_new_day`: a counter stored on 2026-10-11
with `daily_usage = 10`, `monthly_usage = 42` reads as daily 0 and
monthly 42 on a check dated 2026-10-12. -/
theorem quota_reset_on_new_day_witness :
    (quota_check_counters "acme".toList "basic".toList "2026-10-12".toList
      (put_subscription_usage true "acme".toList "basic".toList 10 42 1
        "2026-10-11".toList [])).1 = 0 ∧
    (quota_check_counters "acme".toList "basic".toList "2026-10-12".toList
      (put_subscription_usage true "acme".toList "basic".toList 10 42 1
        "2026-10-11".toList [])).2 = 42 := by
  have h := quota_reset_on_new_day "acme".toList "basic".toList
    "2026-10-12".toList
    (put_subscription_usage true "acme".toList "basic".toList 10 42 1
      "2026-10-11".toList [])
    (serializeItem
      [ ("PK".toList, Val.str (subPK "acme".toList)),
        ("SK".toList, Val.str (subSK "basic".toList)),
        ("tenant_id".toList, Val.str "acme".toList),
        ("tier".toList, Val.str "basic".toList),
        ("daily_usage".toList, Val.num 10),
        ("monthly_usage".toList, Val.num 42),
        ("active_sessions".toList, Val.num 1),
        ("last_reset_date".toList, Val.str "2026-10-11".toList) ])
    (by rfl) (by decide)
  exact ⟨h.1, (h.2 (by decide)).trans (by rfl)⟩

theorem getAttr_serializeItem (k : Str) (it : Item) :
    getAttr k (serializeItem it) = (getAttr k it).map serializeVal := by
  induction it with
  | nil => rfl
  | cons p rest ih =>
    obtain ⟨k0, v0⟩ := p
    by_cases hk : k0 = k
    · simp [serializeItem, getAttr, hk]
    · simp only [serializeItem, List.map_cons, getAttr]
      rw [if_neg hk, if_neg hk]
      exact ih

theorem getAttr_applyOp_ne (k k' : Str) (op : UpdOp) (it : Item) (h : k ≠ k') :
    getAttr k (applyOp it k' op) = getAttr k it := by
  cases op with
  | set v => exact getAttr_setAttr_ne k' k v it h
  | incr d delta =>
    simp only [applyOp]
    cases getAttr k' it with
    | none => exact getAttr_setAttr_ne k' k _ it h
    | some v =>
      cases v with
      | num n => exact getAttr_setAttr_ne k' k _ it h
      | str s => exact getAttr_setAttr_ne k' k _ it h
      | dec q => exact getAttr_setAttr_ne k' k _ it h
      | strs l => exact getAttr_setAttr_ne k' k _ it h

theorem getAttr_applyOps_notMem (k : Str) (ops : List (Str × UpdOp)) (it : Item)
    (h : k ∉ ops.map Prod.fst) :
    getAttr k (applyOps it ops) = getAttr k it := by
  induction ops generalizing it with
  | nil => rfl
  | cons p rest ih =>
    simp only [List.map_cons, List.mem_cons, not_or] at h
    simp only [applyOps, List.foldl_cons]
    rw [show (rest.foldl (fun acc kv => applyOp acc kv.1 kv.2) (applyOp it p.1 p.2)) =
      applyOps (applyOp it p.1 p.2) rest from rfl]
    rw [ih _ h.2, getAttr_applyOp_ne _ _ _ _ h.1]

theorem getAttr_applyOps_last_set (k : Str) (v : Val)
    (pre post : List (Str × UpdOp)) (it : Item) (h : k ∉ post.map Prod.fst) :
    getAttr k (applyOps it (pre ++ (k, UpdOp.set v) :: post)) = some v := by
  simp only [applyOps, List.foldl_append, List.foldl_cons]
  rw [show ∀ (x : Item), (post.foldl (fun acc kv => applyOp acc kv.1 kv.2) x) =
    applyOps x post from fun _ => rfl]
  rw [getAttr_applyOps_notMem _ _ _ h]
  exact getAttr_setAttr_self k v _

theorem updateItem_present (pk sk : Str) (ops : List (Str × UpdOp))
    (t : Table) (it0 : Item) (h : getItem pk sk t = some it0) :
    (updateItem pk sk ops t).2 = applyOps it0 ops ∧
    getItem pk sk (updateItem pk sk ops t).1 = some (applyOps it0 ops) := by
  induction t with
  | nil => exact absurd h (by simp [getItem])
  | cons e rest ih =>
    by_cases hk : e.pk = pk ∧ e.sk = sk
    · simp only [getItem, if_pos hk] at h
      injection h with h
      subst h
      simp [updateItem, hk, getItem]
    · simp only [getItem, if_neg hk] at h
      simp only [updateItem, if_neg hk, getItem]
      exact ih h

theorem updateItem_frame (pk sk pk' sk' : Str) (ops : List (Str × UpdOp))
    (t : Table) (h : ¬(pk' = pk ∧ sk' = sk)) :
    getItem pk' sk' (updateItem pk sk ops t).1 = getItem pk' sk' t := by
  induction t with
  | nil =>
    simp only [updateItem, getItem]
    rw [if_neg (by rintro ⟨rfl, rfl⟩; exact h ⟨rfl, rfl⟩)]
  | cons e rest ih =>
    by_cases hk : e.pk = pk ∧ e.sk = sk
    · simp only [updateItem, if_pos hk, getItem]
      rw [if_neg (by rintro ⟨rfl, rfl⟩; exact h ⟨hk.1.symm ▸ rfl, hk.2.symm ▸ rfl⟩),
        if_neg (by rintro ⟨h1, h2⟩; exact h ⟨h1 ▸ hk.1, h2 ▸ hk.2⟩)]
    · simp only [updateItem, if_neg hk, getItem]
      by_cases he : e.pk = pk' ∧ e.sk = sk'
      · rw [if_pos he, if_pos he]
      · rw [if_neg he, if_neg he, ih]

/-- Reading the counters directly after a `put_subscription_usage` yields
the values just written. -/
theorem readCounters_put (tenant tier today lr : Str) (d m a : Int) (tbl : Table) :
    readCounters tenant tier today
      (put_subscription_usage true tenant tier d m a lr tbl) = (d, m, a, lr) := by
  simp only [readCounters, get_subscription_usage, put_subscription_usage, if_pos]
  rw [getItem_putItem_self]
  rfl

/-- C2 (amended): increments of the subscription counters are issued as a
whole-row read followed by a whole-row `put_item` of locally computed
values (`put_subscription_usage` is not a delta operation), so only
non-overlapping increments are counted exactly: `n` sequential successful
increments starting from a stored counter row raise `daily_usage` by
exactly `n`. -/
theorem increment_usage_sequential (tenant tier today lr : Str)
    (d m a : Int) (n : Nat) (tbl : Table) :
    (get_subscription_usage true tenant tier
        (incrementN tenant tier today n
          (put_subscription_usage true tenant tier d m a lr tbl))).map
      (intAttr "daily_usage".toList) = some (d + n) := by
  induction n generalizing d m a lr tbl with
  | zero =>
    simp only [incrementN, get_subscription_usage, put_subscription_usage, if_pos]
    rw [getItem_putItem_self]
    simp only [Option.map_some, Nat.cast_zero, add_zero]
    rfl
  | succ n ih =>
    simp only [incrementN]
    rw [show increment_usage tenant tier today
        (put_subscription_usage true tenant tier d m a lr tbl) =
      put_subscription_usage true tenant tier (d + 1) (m + 1) a lr
        (put_subscription_usage true tenant tier d m a lr tbl) from by
      simp only [increment_usage, readCounters_put]; rfl]
    rw [ih]
    congr 1
    omega

/-- Counterexample to C2 as stated: two overlapping `increment_usage`
calls that both succeed (both reads before either whole-row write) leave
`daily_usage = 1`, not the claimed `0 + 2`, on a counter that started at
zero — the whole-row put loses one update. -/
theorem increment_lost_update_counterexample :
    (get_subscription_usage true "acme".toList "basic".toList
        (twoIncrementsInterleaved "acme".toList "basic".toList "2026-10-12".toList
          (put_subscription_usage true "acme".toList "basic".toList 0 0 0
            "2026-10-12".toList []))).map
      (intAttr "daily_usage".toList) = some 1 ∧ (1 : Int) ≠ 0 + 2 := by
  exact ⟨rfl, by decide⟩

/-- The non-identity filter `update_session` applies to the updates dict. -/
theorem filteredUpdates_decompose (u1 u2 : List (Str × Val)) (k : Str) (w : Val)
    (hk : identityFields.contains k = false) :
    (u1 ++ (k, w) :: u2).filter (fun kv => !(identityFields.contains kv.1)) =
      u1.filter (fun kv => !(identityFields.contains kv.1)) ++
        (k, w) :: u2.filter (fun kv => !(identityFields.contains kv.1)) := by
  rw [List.filter_append]
  congr 1
  rw [List.filter_cons]
  simp only [hk]
  simpa using hk

theorem fst_of_mapSet (l : List (Str × Val)) :
    (l.map (fun kv => (kv.1, UpdOp.set kv.2))).map Prod.fst = l.map Prod.fst := by
  rw [List.map_map]
  rfl

theorem notMem_fst_filter (l : List (Str × Val)) (k : Str)
    (h : k ∉ l.map Prod.fst) (p : Str × Val → Bool) :
    k ∉ (l.filter p).map Prod.fst := by
  intro hmem
  obtain ⟨kv, hkv, hfst⟩ := List.mem_map.mp hmem
  exact h (List.mem_map.mpr ⟨kv, (List.mem_filter.mp hkv).1, hfst⟩)

/-- The update expression built for a dict containing a non-identity field
`(k, w)`: `updated_at` and the earlier fields first, then `k`, then the
later fields. -/
theorem updateSessionOps_decompose (u1 u2 : List (Str × Val)) (k : Str)
    (w : Val) (now : Nat) (hk : identityFields.contains k = false) :
    updateSessionOps (u1 ++ (k, w) :: u2) now =
      (("updated_at".toList, UpdOp.set (Val.num now)) ::
          (u1.filter (fun kv => !(identityFields.contains kv.1))).map
            (fun kv => (kv.1, UpdOp.set kv.2))) ++
        (k, UpdOp.set w) ::
          (u2.filter (fun kv => !(identityFields.contains kv.1))).map
            (fun kv => (kv.1, UpdOp.set kv.2)) := by
  simp only [updateSessionOps, filteredUpdates_decompose u1 u2 k w hk,
    List.map_append, List.map_cons]
  rfl

theorem nodup_middle_notMem (u1 u2 : List (Str × Val)) (k : Str) (w : Val)
    (hnodup : ((u1 ++ (k, w) :: u2).map Prod.fst).Nodup) :
    k ∉ u2.map Prod.fst := by
  have hmap : ((u1 ++ (k, w) :: u2).map Prod.fst) =
      u1.map Prod.fst ++ k :: u2.map Prod.fst := by simp
  rw [hmap] at hnodup
  exact (List.nodup_cons.mp (hnodup.sublist (List.sublist_append_right _ _))).1

/-- C6: after a successful `update_session` that sets `title` on an
existing session, a `get_session` for the same session performed within
the cache validity window is served the new title from the cache:
`update_session` writes the updated record through to the cache. -/
theorem update_session_title_write_through (storeOk' : Bool)
    (sid tenant user : Str) (updates : List (Str × Val)) (v : Str)
    (now now' : Nat) (st : Store) (it0 : Item)
    (hit0 : getItem (sessionPK tenant user) (sessionSK sid) st.table = some it0)
    (hmem : ("title".toList, Val.str v) ∈ updates)
    (hnodup : (updates.map Prod.fst).Nodup)
    (hwin : now' < now + CACHE_DURATION_SECONDS) :
    ((get_session storeOk' sid tenant user now'
        (update_session true sid tenant user updates now st).2).1).bind
      (getAttr "title".toList) = some (Val.str v) := by
  have hne : updates ≠ [] := List.ne_nil_of_mem hmem
  -- the updated record carries the new title
  have htitle : getAttr "title".toList
      (applyOps it0 (updateSessionOps updates now)) = some (Val.str v) := by
    obtain ⟨u1, u2, rfl⟩ := List.append_of_mem hmem
    rw [updateSessionOps_decompose u1 u2 "title".toList (Val.str v) now (by decide)]
    apply getAttr_applyOps_last_set
    rw [fst_of_mapSet]
    exact notMem_fst_filter _ _ (nodup_middle_notMem u1 u2 _ _ hnodup) _
  have hupd := updateItem_present (sessionPK tenant user) (sessionSK sid)
    (updateSessionOps updates now) st.table it0 hit0
  simp only [update_session, if_neg hne, if_true]
  rw [hupd.1]
  have hcl := cacheLookup_update_self sid
    (applyOps it0 (updateSessionOps updates now)) now st.cache
  have hvalid : isCacheValid sid now'
      ⟨(updateItem (sessionPK tenant user) (sessionSK sid)
          (updateSessionOps updates now) st.table).1,
        cacheUpdate sid (applyOps it0 (updateSessionOps updates now)) now st.cache⟩ =
      true := by
    simp [isCacheValid, hcl, hwin]
  simp only [get_session, hvalid, if_true]
  simp only [hcl]
  show getAttr "title".toList
    (serializeItem (applyOps it0 (updateSessionOps updates now))) = some (Val.str v)
  rw [getAttr_serializeItem, htitle]
  rfl

/-- Witness for `update_session_title_write_through`: a concrete title
update read back through the cache. -/
theorem update_session_title_write_through_witness :
    ((get_session true "s1".toList "acme".toList "u1".toList 200
        (update_session true "s1".toList "acme".toList "u1".toList
          [("title".toList, Val.str "new".toList)] 100
          ⟨[⟨sessionPK "acme".toList "u1".toList, sessionSK "s1".toList,
            [("title".toList, Val.str "old".toList)]⟩], []⟩).2).1).bind
      (getAttr "title".toList) = some (Val.str "new".toList) :=
  update_session_title_write_through true "s1".toList "acme".toList "u1".toList
    [("title".toList, Val.str "new".toList)] "new".toList 100 200
    ⟨[⟨sessionPK "acme".toList "u1".toList, sessionSK "s1".toList,
      [("title".toList, Val.str "old".toList)]⟩], []⟩
    [("title".toList, Val.str "old".toList)]
    (by rfl) (by decide) (by decide) (by decide)

/-- C9: `get_usage_summary` over a range with no usage events returns the
zeroed summary (not an error); and for exactly two usage events recorded
for the same tenant on the same date with costs 0.002 and 0.003, the
summary over a window covering that date has total cost exactly 0.005 and
request count 2. -/
theorem usage_summary_zero_and_sum :
    (∀ (tenant startDate : Str) (days : Nat) (tbl : Table),
      tbl.filter (fun e => e.pk == "USAGE".toList ++ '#' :: tenant &&
          leStr ("USAGE".toList ++ '#' :: startDate) e.sk) = [] →
      get_usage_summary true tenant days startDate tbl = zeroSummary tenant days) ∧
    (get_usage_summary true "acme".toList 1 "2026-10-12".toList
        (record_usage true true "s1".toList "acme".toList "u1".toList 10 20
          "m1".toList (0.002 : Rat) "2026-10-12".toList 1000
          (record_usage true true "s2".toList "acme".toList "u1".toList 1 2
            "m1".toList (0.003 : Rat) "2026-10-12".toList 2000 []))).total_cost_usd =
      (0.005 : Rat) ∧
    (get_usage_summary true "acme".toList 1 "2026-10-12".toList
        (record_usage true true "s1".toList "acme".toList "u1".toList 10 20
          "m1".toList (0.002 : Rat) "2026-10-12".toList 1000
          (record_usage true true "s2".toList "acme".toList "u1".toList 1 2
            "m1".toList (0.003 : Rat) "2026-10-12".toList 2000 []))).total_requests = 2 := by
  have hfloor : ∀ q : Rat, q.den = 1 → Rat.floor q = q.num := by
    intro q hq
    rw [Rat.floor, if_pos hq]
  refine ⟨?_, ?_, by rfl⟩
  · intro tenant startDate days tbl h
    simp only [get_usage_summary, queryFrom, if_true, h]
    show (⟨tenant, days, 0, 0, 0, pyRound4 0, 0, []⟩ : UsageSummary) =
      zeroSummary tenant days
    simp only [zeroSummary, UsageSummary.mk.injEq, and_true, true_and]
    rw [pyRound4]
    norm_num [hfloor]
  · have hc : (get_usage_summary true "acme".toList 1 "2026-10-12".toList
        (record_usage true true "s1".toList "acme".toList "u1".toList 10 20
          "m1".toList (0.002 : Rat) "2026-10-12".toList 1000
          (record_usage true true "s2".toList "acme".toList "u1".toList 1 2
            "m1".toList (0.003 : Rat) "2026-10-12".toList 2000 []))).total_cost_usd =
        pyRound4 ((0.002 : Rat) + ((0.003 : Rat) + 0)) := rfl
    rw [hc]
    have hsum : ((0.002 : Rat) + ((0.003 : Rat) + 0)) = 1/200 := by norm_num
    rw [pyRound4, hsum]
    norm_num [hfloor]

/-- Witness for `usage_summary_zero_and_sum`: the zero-row branch at the
empty table. -/
theorem usage_summary_zero_and_sum_witness :
    get_usage_summary true "t".toList 30 "2026-01-01".toList [] =
      zeroSummary "t".toList 30 :=
  usage_summary_zero_and_sum.1 "t".toList "2026-01-01".toList 30 [] (by rfl)

/-- C3, at the failing input: with a `before` cursor, `get_messages`
replaces the whole key condition by `SK < f"MSG#{sid}#{before}"`, so the
query is no longer restricted to the requested session: paginating
session `b` returns session `a`'s message as well (first conjunct), while
the cursorless call is correctly restricted (second conjunct). -/
theorem get_messages_cursor_not_session_restricted :
    (get_messages true "b".toList "t".toList "u".toList 100 (some "zzz".toList)
        (add_message true true "b".toList "user".toList
          (Content.text "yo".toList) "t".toList "u".toList none 2000 "h2".toList
          (add_message true true "a".toList "user".toList
            (Content.text "hi".toList) "t".toList "u".toList none 1000
            "h1".toList []).2).2).map (getAttr "session_id".toList) =
      [some (Val.str "a".toList), some (Val.str "b".toList)] ∧
    (get_messages true "b".toList "t".toList "u".toList 100 none
        (add_message true true "b".toList "user".toList
          (Content.text "yo".toList) "t".toList "u".toList none 2000 "h2".toList
          (add_message true true "a".toList "user".toList
            (Content.text "hi".toList) "t".toList "u".toList none 1000
            "h1".toList []).2).2).map (getAttr "session_id".toList) =
      [some (Val.str "b".toList)] :=
  ⟨rfl, rfl⟩

/-- C8: an `update_session` call on an existing session stores exactly
`applyOps it0 ops` for the built update expression, and that record (i)
keeps every identity field (`PK`, `SK`, `session_id`, `tenant_id`,
`user_id`) unchanged no matter what the updates dict contains — overwrite
attempts are dropped; (ii) sets `updated_at`; (iii) gives every
non-identity field named in the updates dict its provided value; and (iv)
leaves every other field at its previous value. -/
theorem update_session_identity_frame (sid tenant user : Str)
    (updates : List (Str × Val)) (now : Nat) (st : Store) (it0 : Item)
    (hit0 : getItem (sessionPK tenant user) (sessionSK sid) st.table = some it0)
    (hne : updates ≠ [])
    (hnodup : (updates.map Prod.fst).Nodup) :
    getItem (sessionPK tenant user) (sessionSK sid)
        (update_session true sid tenant user updates now st).2.table =
      some (applyOps it0 (updateSessionOps updates now)) ∧
    (∀ k, k ∈ identityFields →
      getAttr k (applyOps it0 (updateSessionOps updates now)) = getAttr k it0) ∧
    ("updated_at".toList ∉ updates.map Prod.fst →
      getAttr "updated_at".toList (applyOps it0 (updateSessionOps updates now)) =
        some (Val.num now)) ∧
    (∀ k w, (k, w) ∈ updates → k ∉ identityFields →
      getAttr k (applyOps it0 (updateSessionOps updates now)) = some w) ∧
    (∀ k, k ∉ updates.map Prod.fst → k ≠ "updated_at".toList →
      getAttr k (applyOps it0 (updateSessionOps updates now)) = getAttr k it0) := by
  refine ⟨?_, ?_, ?_, ?_, ?_⟩
  · simp only [update_session, if_neg hne, if_true]
    exact (updateItem_present _ _ _ _ _ hit0).2
  · intro k hkid
    apply getAttr_applyOps_notMem
    intro hmem
    simp only [updateSessionOps, List.map_cons, List.mem_cons] at hmem
    rcases hmem with h | h
    · rw [h] at hkid
      exact absurd hkid (by decide)
    · rw [fst_of_mapSet] at h
      obtain ⟨kv, hkvmem, hfst⟩ := List.mem_map.mp h
      have hp := (List.mem_filter.mp hkvmem).2
      rw [hfst] at hp
      have : identityFields.contains k = true := by simpa using hkid
      rw [this] at hp
      exact Bool.noConfusion hp
  · intro hupd
    rw [show updateSessionOps updates now =
      [] ++ ("updated_at".toList, UpdOp.set (Val.num now)) ::
        (updates.filter (fun kv => !(identityFields.contains kv.1))).map
          (fun kv => (kv.1, UpdOp.set kv.2)) from rfl]
    apply getAttr_applyOps_last_set
    rw [fst_of_mapSet]
    exact notMem_fst_filter _ _ hupd _
  · intro k w hkw hkid
    have hkc : identityFields.contains k = false := by simpa using hkid
    obtain ⟨u1, u2, rfl⟩ := List.append_of_mem hkw
    rw [updateSessionOps_decompose u1 u2 k w now hkc]
    apply getAttr_applyOps_last_set
    rw [fst_of_mapSet]
    exact notMem_fst_filter _ _ (nodup_middle_notMem u1 u2 _ _ hnodup) _
  · intro k hknot hkupd
    apply getAttr_applyOps_notMem
    intro hmem
    simp only [updateSessionOps, List.map_cons, List.mem_cons] at hmem
    rcases hmem with h | h
    · exact hkupd h
    · rw [fst_of_mapSet] at h
      exact absurd h (notMem_fst_filter _ _ hknot _)

/-- Witness for `update_session_identity_frame`: an update naming `title`
and attempting to overwrite `tenant_id` changes the title, keeps
`tenant_id` and `status`, and stamps `updated_at`. -/
theorem update_session_identity_frame_witness :
    getAttr "tenant_id".toList
        (applyOps
          [ ("tenant_id".toList, Val.str "acme".toList),
            ("status".toList, Val.str "active".toList),
            ("title".toList, Val.str "old".toList) ]
          (updateSessionOps
            [ ("title".toList, Val.str "new".toList),
              ("tenant_id".toList, Val.str "evil".toList) ] 555)) =
      some (Val.str "acme".toList) ∧
    getAttr "title".toList
        (applyOps
          [ ("tenant_id".toList, Val.str "acme".toList),
            ("status".toList, Val.str "active".toList),
            ("title".toList, Val.str "old".toList) ]
          (updateSessionOps
            [ ("title".toList, Val.str "new".toList),
              ("tenant_id".toList, Val.str "evil".toList) ] 555)) =
      some (Val.str "new".toList) ∧
    getAttr "updated_at".toList
        (applyOps
          [ ("tenant_id".toList, Val.str "acme".toList),
            ("status".toList, Val.str "active".toList),
            ("title".toList, Val.str "old".toList) ]
          (updateSessionOps
            [ ("title".toList, Val.str "new".toList),
              ("tenant_id".toList, Val.str "evil".toList) ] 555)) =
      some (Val.num 555) ∧
    getAttr "status".toList
        (applyOps
          [ ("tenant_id".toList, Val.str "acme".toList),
            ("status".toList, Val.str "active".toList),
            ("title".toList, Val.str "old".toList) ]
          (updateSessionOps
            [ ("title".toList, Val.str "new".toList),
              ("tenant_id".toList, Val.str "evil".toList) ] 555)) =
      some (Val.str "active".toList) := by
  have h := update_session_identity_frame "s1".toList "acme".toList "u1".toList
    [ ("title".toList, Val.str "new".toList),
      ("tenant_id".toList, Val.str "evil".toList) ] 555
    ⟨[⟨sessionPK "acme".toList "u1".toList, sessionSK "s1".toList,
      [ ("tenant_id".toList, Val.str "acme".toList),
        ("status".toList, Val.str "active".toList),
        ("title".toList, Val.str "old".toList) ]⟩], []⟩
    [ ("tenant_id".toList, Val.str "acme".toList),
      ("status".toList, Val.str "active".toList),
      ("title".toList, Val.str "old".toList) ]
    (by rfl) (by decide) (by decide)
  exact ⟨(h.2.1 "tenant_id".toList (by decide)).trans (by rfl),
    h.2.2.2.1 "title".toList (Val.str "new".toList) (by decide) (by decide),
    h.2.2.1 (by decide),
    (h.2.2.2.2 "status".toList (by decide) (by decide)).trans (by rfl)⟩

theorem ltStr_irrefl (a : Str) : ltStr a a = false := by
  induction a with
  | nil => rfl
  | cons c as ih =>
    simp only [ltStr]
    rw [if_neg (lt_irrefl c), if_neg (lt_irrefl c)]
    exact ih

theorem ltStr_asymm {a b : Str} (h : ltStr a b = true) : ltStr b a = false := by
  induction a generalizing b with
  | nil =>
    cases b with
    | nil => exact absurd h (by simp [ltStr])
    | cons c bs => rfl
  | cons c as ih =>
    cases b with
    | nil => exact absurd h (by simp [ltStr])
    | cons d bs =>
      simp only [ltStr] at h ⊢
      by_cases hcd : c < d
      · rw [if_neg (asymm hcd), if_pos hcd]
      · rw [if_neg hcd] at h
        by_cases hdc : d < c
        · rw [if_pos hdc] at h
          exact absurd h (by simp)
        · rw [if_neg hdc] at h
          rw [if_neg hdc, if_neg hcd]
          exact ih h

theorem ltStr_ne {a b : Str} (h : ltStr a b = true) : a ≠ b := by
  intro hab
  subst hab
  rw [ltStr_irrefl] at h
  exact Bool.noConfusion h

theorem isPre_append (p r : Str) : isPre p (p ++ r) = true := by
  induction p with
  | nil => rfl
  | cons c cs ih =>
    simp only [List.cons_append, isPre]
    rw [show cs.append r = cs ++ r from rfl, ih]
    simp

theorem getItem_none_of_forall (pk sk : Str) (t : Table)
    (h : ∀ e ∈ t, ¬(e.pk = pk ∧ e.sk = sk)) : getItem pk sk t = none := by
  induction t with
  | nil => rfl
  | cons e rest ih =>
    simp only [getItem]
    rw [if_neg (h e (List.mem_cons_self e rest))]
    exact ih fun e' he' => h e' (List.mem_cons_of_mem e he')

theorem putItem_append_of_absent (pk sk : Str) (it : Item) (t : Table)
    (h : ∀ e ∈ t, ¬(e.pk = pk ∧ e.sk = sk)) :
    putItem pk sk it t = t ++ [⟨pk, sk, it⟩] := by
  induction t with
  | nil => rfl
  | cons e rest ih =>
    simp only [putItem]
    rw [if_neg (h e (List.mem_cons_self e rest)),
      ih fun e' he' => h e' (List.mem_cons_of_mem e he'), List.cons_append]

theorem mem_updateItem {e : Entry} (pk sk : Str) (ops : List (Str × UpdOp))
    (t : Table) (h : e ∈ (updateItem pk sk ops t).1) :
    e ∈ t ∨ (e.pk = pk ∧ e.sk = sk) := by
  induction t with
  | nil =>
    simp only [updateItem, List.mem_singleton] at h
    subst h
    exact Or.inr ⟨rfl, rfl⟩
  | cons f rest ih =>
    by_cases hk : f.pk = pk ∧ f.sk = sk
    · simp only [updateItem, if_pos hk, List.mem_cons] at h
      rcases h with h | h
      · subst h
        exact Or.inr ⟨rfl, rfl⟩
      · exact Or.inl (List.mem_cons_of_mem f h)
    · simp only [updateItem, if_neg hk, List.mem_cons] at h
      rcases h with h | h
      · exact Or.inl (h ▸ List.mem_cons_self f rest)
      · rcases ih h with h' | h'
        · exact Or.inl (List.mem_cons_of_mem f h')
        · exact Or.inr h'

theorem filter_keys_updateItem (pk0 pre pk sk : Str) (ops : List (Str × UpdOp))
    (t : Table) (hs : isPre pre sk = false) :
    List.filter (fun e => e.pk == pk0 && isPre pre e.sk) (updateItem pk sk ops t).1 =
      List.filter (fun e => e.pk == pk0 && isPre pre e.sk) t := by
  induction t with
  | nil =>
    simp only [updateItem, List.filter]
    rw [show ((⟨pk, sk, applyOps [("PK".toList, Val.str pk),
        ("SK".toList, Val.str sk)] ops⟩ : Entry).pk == pk0 &&
      isPre pre (⟨pk, sk, applyOps [("PK".toList, Val.str pk),
        ("SK".toList, Val.str sk)] ops⟩ : Entry).sk) =
      ((pk == pk0) && isPre pre sk) from rfl, hs]
    simp
  | cons f rest ih =>
    by_cases hk : f.pk = pk ∧ f.sk = sk
    · simp only [updateItem, if_pos hk]
      have hf : (f.pk == pk0 && isPre pre f.sk) = false := by
        rw [hk.2, hs]
        simp
      have hnew : ((⟨pk, sk, applyOps f.attrs ops⟩ : Entry).pk == pk0 &&
          isPre pre (⟨pk, sk, applyOps f.attrs ops⟩ : Entry).sk) = false := by
        rw [show (⟨pk, sk, applyOps f.attrs ops⟩ : Entry).sk = sk from rfl, hs]
        simp
      rw [List.filter_cons_of_neg (by simpa using hnew),
        List.filter_cons_of_neg (by simpa using hf)]
    · simp only [updateItem, if_neg hk]
      rw [List.filter_cons, List.filter_cons, ih]

theorem sortAsc_of_chain (l : List Entry)
    (h : List.Chain' (fun a b : Entry => leStr a.sk b.sk = true) l) :
    sortAsc l = l := by
  induction l with
  | nil => rfl
  | cons a l ih =>
    have : sortAsc (a :: l) = insertAsc a (sortAsc l) := rfl
    rw [this, ih h.tail]
    cases l with
    | nil => rfl
    | cons b bs =>
      simp only [insertAsc]
      rw [if_pos (List.chain'_cons.mp h).1]

theorem msgSK_ne_sessionSK (s m s' : Str) : msgSK s m ≠ sessionSK s' := by
  intro h
  have h2 : (some 'M' : Option Char) = some 'S' := by
    have h3 := congrArg List.head? h
    rwa [show List.head? (msgSK s m) = some 'M' from rfl,
      show List.head? (sessionSK s') = some 'S' from rfl] at h3
  exact absurd h2 (by decide)

/-- One fully successful `add_message` raises the parent session's
`message_count` from `c` to `c + 1` (the message put does not touch the
session row; the session update sets `updated_at` and increments the
counter atomically). -/
theorem count_after_add (sid role tenant user : Str) (content : Content)
    (metadata : Option Val) (nowMs : Nat) (hash8 : Str) (tbl : Table) (c : Int)
    (h : (getItem (sessionPK tenant user) (sessionSK sid) tbl).bind
        (getAttr "message_count".toList) = some (Val.num c)) :
    (getItem (sessionPK tenant user) (sessionSK sid)
        (add_message true true sid role content tenant user metadata nowMs
          hash8 tbl).2).bind
      (getAttr "message_count".toList) = some (Val.num (c + 1)) := by
  obtain ⟨it0, hit0, hattr⟩ := Option.bind_eq_some.mp h
  have h1 : getItem (sessionPK tenant user) (sessionSK sid)
      (putItem (sessionPK tenant user) (msgSK sid (message_id nowMs hash8))
        (msgItem sid tenant user role content metadata nowMs hash8) tbl) =
      some it0 := by
    rw [getItem_putItem_ne _ _ _ _ _ _
      (by rintro ⟨-, h2⟩
          exact msgSK_ne_sessionSK sid (message_id nowMs hash8) sid h2.symm)]
    exact hit0
  have h2 := updateItem_present (sessionPK tenant user) (sessionSK sid)
    (addMessageOps nowMs) _ it0 h1
  rw [show (add_message true true sid role content tenant user metadata nowMs
        hash8 tbl).2 =
      (updateItem (sessionPK tenant user) (sessionSK sid) (addMessageOps nowMs)
        (putItem (sessionPK tenant user) (msgSK sid (message_id nowMs hash8))
          (msgItem sid tenant user role content metadata nowMs hash8) tbl)).1
    from rfl]
  rw [h2.2]
  show getAttr "message_count".toList
    (applyOps it0 (addMessageOps nowMs)) = some (Val.num (c + 1))
  have h3 : getAttr "message_count".toList
      (setAttr "updated_at".toList (Val.num nowMs) it0) = some (Val.num c) := by
    rw [getAttr_setAttr_ne _ _ _ _ (by decide)]
    exact hattr
  rw [show applyOps it0 (addMessageOps nowMs) =
    applyOp (applyOp it0 "updated_at".toList (UpdOp.set (Val.num nowMs)))
      "message_count".toList (UpdOp.incr 0 1) from rfl]
  simp only [applyOp, h3]
  exact getAttr_setAttr_self _ _ _

/-- `N` fully successful appends raise `message_count` from `c` to `c + N`. -/
theorem count_after_run (sid tenant user : Str) (ins : List MsgIn)
    (tbl : Table) (c : Int)
    (h : (getItem (sessionPK tenant user) (sessionSK sid) tbl).bind
        (getAttr "message_count".toList) = some (Val.num c)) :
    (getItem (sessionPK tenant user) (sessionSK sid)
        (runAppends sid tenant user ins tbl)).bind
      (getAttr "message_count".toList) = some (Val.num (c + ins.length)) := by
  induction ins generalizing tbl c with
  | nil =>
    simp only [runAppends, List.length_nil, Nat.cast_zero, add_zero]
    exact h
  | cons i rest ih =>
    simp only [runAppends]
    have h3 : (c + ↑((i :: rest).length) : Int) = (c + 1) + ↑rest.length := by
      simp only [List.length_cons]
      push_cast
      ring
    rw [h3]
    exact ih _ _ (count_after_add sid i.role tenant user i.content i.metadata
      i.nowMs i.hash8 tbl c h)

/-- After `N` fully successful appends of fresh, pairwise sort-key-ordered
messages, the session's message rows are exactly the rows of the appended
messages, in append order, after any pre-existing ones. -/
theorem filter_after_run (sid tenant user : Str) (ins : List MsgIn) (tbl : Table)
    (hfresh : ∀ i ∈ ins, ∀ e ∈ tbl,
      ¬(e.pk = sessionPK tenant user ∧ e.sk = inSK sid i))
    (hord : List.Pairwise
      (fun a b : MsgIn => ltStr (inSK sid a) (inSK sid b) = true) ins) :
    List.filter (fun e => e.pk == sessionPK tenant user && isPre (msgPre sid) e.sk)
        (runAppends sid tenant user ins tbl) =
      List.filter (fun e => e.pk == sessionPK tenant user && isPre (msgPre sid) e.sk)
          tbl ++
        ins.map (msgEntryOf sid tenant user) := by
  induction ins generalizing tbl with
  | nil => simp [runAppends]
  | cons i rest ih =>
    simp only [runAppends]
    have habs : ∀ e ∈ tbl, ¬(e.pk = sessionPK tenant user ∧ e.sk = inSK sid i) :=
      hfresh i (List.mem_cons_self i rest)
    have hstep : (add_message true true sid i.role i.content tenant user
        i.metadata i.nowMs i.hash8 tbl).2 =
        (updateItem (sessionPK tenant user) (sessionSK sid)
          (addMessageOps i.nowMs) (tbl ++ [msgEntryOf sid tenant user i])).1 := by
      rw [show (add_message true true sid i.role i.content tenant user
          i.metadata i.nowMs i.hash8 tbl).2 =
        (updateItem (sessionPK tenant user) (sessionSK sid)
          (addMessageOps i.nowMs)
          (putItem (sessionPK tenant user) (inSK sid i)
            (msgItem sid tenant user i.role i.content i.metadata i.nowMs
              i.hash8) tbl)).1 from rfl]
      rw [putItem_append_of_absent _ _ _ _ habs]
      rfl
    rw [hstep]
    have hfresh' : ∀ j ∈ rest, ∀ e ∈ (updateItem (sessionPK tenant user)
        (sessionSK sid) (addMessageOps i.nowMs)
        (tbl ++ [msgEntryOf sid tenant user i])).1,
        ¬(e.pk = sessionPK tenant user ∧ e.sk = inSK sid j) := by
      intro j hj e he
      rcases mem_updateItem _ _ _ _ he with he' | hkey
      · rcases List.mem_append.mp he' with hmem | hmem
        · exact hfresh j (List.mem_cons_of_mem i hj) e hmem
        · have he2 : e = msgEntryOf sid tenant user i := by
            simpa using hmem
          subst he2
          rintro ⟨-, hsk⟩
          have hlt := (List.pairwise_cons.mp hord).1 j hj
          exact ltStr_ne hlt (show inSK sid i = inSK sid j from hsk)
      · rintro ⟨-, hsk⟩
        rw [hkey.2] at hsk
        exact msgSK_ne_sessionSK sid (message_id j.nowMs j.hash8) sid hsk.symm
    rw [ih _ hfresh' (List.pairwise_cons.mp hord).2]
    rw [filter_keys_updateItem _ _ _ _ _ _
      (show isPre (msgPre sid) (sessionSK sid) = false from rfl)]
    rw [List.filter_append]
    rw [show List.filter
        (fun e => e.pk == sessionPK tenant user && isPre (msgPre sid) e.sk)
        [msgEntryOf sid tenant user i] = [msgEntryOf sid tenant user i] from by
      rw [List.filter_cons]
      rw [show ((msgEntryOf sid tenant user i).pk == sessionPK tenant user &&
          isPre (msgPre sid) (msgEntryOf sid tenant user i).sk) =
        ((sessionPK tenant user == sessionPK tenant user) &&
          isPre (msgPre sid) (msgPre sid ++ message_id i.nowMs i.hash8)) from rfl]
      rw [isPre_append]
      simp]
    simp [List.append_assoc]

theorem pList_str_close (rest : Str) (acc : List Char) (items : List Str) :
    pList ('"' :: rest) (some acc) items = pList rest none (acc.reverse :: items) := by
  cases rest with
  | nil =>
    simp only [pList]
    simp
  | cons d rest' =>
    simp only [pList]
    rw [if_true]

theorem pList_str_esc (c : Char) (rest : Str) (acc : List Char) (items : List Str) :
    pList ('\\' :: c :: rest) (some acc) items = pList rest (some (c :: acc)) items := by
  simp only [pList]
  simp

theorem pList_str_chr (c : Char) (rest : Str) (acc : List Char) (items : List Str)
    (h1 : ¬c = '"') (h2 : ¬c = '\\') :
    pList (c :: rest) (some acc) items = pList rest (some (c :: acc)) items := by
  cases rest with
  | nil =>
    simp only [pList]
    rw [if_neg h1, if_neg h2]
  | cons d rest' =>
    simp only [pList]
    rw [if_neg h1, if_neg h2]

theorem pList_string (s : Str) (rest : Str) (acc : List Char) (items : List Str) :
    pList (escapeStr s ++ '"' :: rest) (some acc) items =
      pList rest none ((acc.reverse ++ s) :: items) := by
  induction s generalizing acc with
  | nil =>
    rw [show escapeStr [] ++ '"' :: rest = '"' :: rest from rfl, pList_str_close,
      List.append_nil]
  | cons c cs ih =>
    by_cases hc : c = '\\' ∨ c = '"'
    · rw [show escapeStr (c :: cs) ++ '"' :: rest =
        '\\' :: c :: (escapeStr cs ++ '"' :: rest) from by
          simp only [escapeStr, if_pos hc, List.cons_append]]
      rw [pList_str_esc, ih, List.reverse_cons, List.append_assoc,
        List.singleton_append]
    · rw [not_or] at hc
      rw [show escapeStr (c :: cs) ++ '"' :: rest =
        c :: (escapeStr cs ++ '"' :: rest) from by
          simp only [escapeStr, if_neg (not_or.mpr hc), List.cons_append]]
      rw [pList_str_chr _ _ _ _ hc.2 hc.1, ih, List.reverse_cons,
        List.append_assoc, List.singleton_append]

theorem pList_quote (rest : Str) (items : List Str) :
    pList ('"' :: rest) none items = pList rest (some []) items := by
  simp only [pList]
  simp

theorem pList_skip (c : Char) (rest : Str) (items : List Str)
    (h1 : ¬c = ']') (h2 : ¬c = '"') (h3 : c = ',' ∨ c = ' ') :
    pList (c :: rest) none items = pList rest none items := by
  simp only [pList]
  rw [if_neg h1, if_neg h2, if_pos h3]

theorem pList_close (items : List Str) :
    pList [']'] none items = some items.reverse := by
  simp only [pList]
  rw [if_true, if_true]

theorem dumpItems_cons (b : Str) (bs : List Str) :
    dumpItems (b :: bs) = '"' :: (escapeStr b ++ '"' ::
      (match bs with
       | [] => [']']
       | _ :: _ => ',' :: ' ' :: dumpItems bs)) := rfl

theorem pList_items (bs : List Str) (items : List Str) :
    pList (dumpItems bs) none items = some (items.reverse ++ bs) := by
  induction bs generalizing items with
  | nil =>
    rw [show dumpItems [] = [']'] from rfl, pList_close, List.append_nil]
  | cons b bs' ih =>
    rw [dumpItems_cons, pList_quote, pList_string]
    simp only [List.reverse_nil, List.nil_append]
    cases bs' with
    | nil =>
      show pList [']'] none (b :: items) = some (items.reverse ++ [b])
      rw [pList_close, List.reverse_cons]
    | cons b2 bs2 =>
      show pList (',' :: ' ' :: dumpItems (b2 :: bs2)) none (b :: items) =
        some (items.reverse ++ b :: b2 :: bs2)
      rw [pList_skip _ _ _ (by decide) (by decide) (by decide),
        pList_skip _ _ _ (by decide) (by decide) (by decide), ih,
        List.reverse_cons, List.append_assoc, List.singleton_append]

/-- The structured-content round trip: `json.loads` recovers exactly the
block list `json.dumps` serialized. -/
theorem loadBlocks_dumpBlocks (bs : List Str) :
    loadBlocks (dumpBlocks bs) = some bs := by
  show pList (dumpItems bs) none [] = some bs
  rw [pList_items]
  rfl

/-- The record `get_messages` returns for an appended message carries the
message's role, its session id, and its original content — plain text
unchanged, block lists recovered from their serialized form. -/
theorem expectedMsg_attrs (sid tenant user : Str) (i : MsgIn) :
    getAttr "role".toList (expectedMsg sid tenant user i) = some (Val.str i.role) ∧
    getAttr "session_id".toList (expectedMsg sid tenant user i) = some (Val.str sid) ∧
    getAttr "content".toList (expectedMsg sid tenant user i) =
      some (match i.content with
            | Content.text s => Val.str s
            | Content.blocks bs => Val.strs bs) := by
  obtain ⟨nowMs, hash8, role, content, metadata⟩ := i
  cases content with
  | text s => exact ⟨rfl, rfl, rfl⟩
  | blocks bs =>
    have hmsg : expectedMsg sid tenant user
        ⟨nowMs, hash8, role, Content.blocks bs, metadata⟩ =
        setAttr "content".toList (Val.strs bs)
          (serializeItem (msgItem sid tenant user role (Content.blocks bs)
            metadata nowMs hash8)) := by
      rw [show expectedMsg sid tenant user
          ⟨nowMs, hash8, role, Content.blocks bs, metadata⟩ =
        parseMsg (msgItem sid tenant user role (Content.blocks bs) metadata
          nowMs hash8) from rfl]
      simp only [parseMsg]
      rw [if_pos (show getAttr "content_type".toList
          (serializeItem (msgItem sid tenant user role (Content.blocks bs)
            metadata nowMs hash8)) = some (Val.str "list".toList) from rfl)]
      rw [show getAttr "content".toList
          (serializeItem (msgItem sid tenant user role (Content.blocks bs)
            metadata nowMs hash8)) = some (Val.str (dumpBlocks bs)) from rfl]
      show (match loadBlocks (dumpBlocks bs) with
        | some bs1 => setAttr "content".toList (Val.strs bs1)
            (serializeItem (msgItem sid tenant user role (Content.blocks bs)
              metadata nowMs hash8))
        | none => serializeItem (msgItem sid tenant user role
            (Content.blocks bs) metadata nowMs hash8)) =
        setAttr "content".toList (Val.strs bs)
          (serializeItem (msgItem sid tenant user role (Content.blocks bs)
            metadata nowMs hash8))
      rw [loadBlocks_dumpBlocks]
    rw [hmsg]
    refine ⟨?_, ?_, ?_⟩
    · rw [getAttr_setAttr_ne _ _ _ _ (by decide)]
      rfl
    · rw [getAttr_setAttr_ne _ _ _ _ (by decide)]
      rfl
    · exact getAttr_setAttr_self _ _ _

/-- C1: starting from a session whose record is in the store with
`message_count = 0` and no message rows yet, `N ≥ 1` fully successful
`add_message` calls with strictly increasing message sort keys leave the
session record with `message_count = N`, and `get_messages` (with the
limit not below `N`) returns exactly those `N` messages in append order;
moreover, in every single `add_message`, the message row is written before
the counter is incremented: whenever the message row is absent afterwards
(the put failed), the session's `message_count` is unchanged. -/
theorem append_messages_count_and_order (sid tenant user : Str)
    (ins : List MsgIn) (tbl0 : Table) (limit : Nat)
    (hcount : (getItem (sessionPK tenant user) (sessionSK sid) tbl0).bind
        (getAttr "message_count".toList) = some (Val.num 0))
    (hclean : ∀ e ∈ tbl0,
      ¬(e.pk = sessionPK tenant user ∧ isPre (msgPre sid) e.sk = true))
    (hord : List.Pairwise
      (fun a b : MsgIn => ltStr (inSK sid a) (inSK sid b) = true) ins)
    (_hN : 1 ≤ ins.length) (hlim : ins.length ≤ limit) :
    (getItem (sessionPK tenant user) (sessionSK sid)
        (runAppends sid tenant user ins tbl0)).bind
      (getAttr "message_count".toList) = some (Val.num ins.length) ∧
    get_messages true sid tenant user limit none
        (runAppends sid tenant user ins tbl0) =
      ins.map (expectedMsg sid tenant user) ∧
    (∀ (tbl : Table) (putOk updOk : Bool) (i : MsgIn),
      getItem (sessionPK tenant user) (inSK sid i)
          (add_message putOk updOk sid i.role i.content tenant user i.metadata
            i.nowMs i.hash8 tbl).2 = none →
      (getItem (sessionPK tenant user) (sessionSK sid)
          (add_message putOk updOk sid i.role i.content tenant user i.metadata
            i.nowMs i.hash8 tbl).2).bind (getAttr "message_count".toList) =
        (getItem (sessionPK tenant user) (sessionSK sid) tbl).bind
          (getAttr "message_count".toList)) := by
  refine ⟨?_, ?_, ?_⟩
  · have h := count_after_run sid tenant user ins tbl0 0 hcount
    rw [zero_add] at h
    exact h
  · have hfresh : ∀ i ∈ ins, ∀ e ∈ tbl0,
        ¬(e.pk = sessionPK tenant user ∧ e.sk = inSK sid i) := by
      intro i hi e he
      rintro ⟨hpk, hsk⟩
      refine hclean e he ⟨hpk, ?_⟩
      rw [hsk, show inSK sid i = msgPre sid ++ message_id i.nowMs i.hash8 from rfl]
      exact isPre_append _ _
    have hfil : List.filter
        (fun e => e.pk == sessionPK tenant user && isPre (msgPre sid) e.sk)
        tbl0 = [] := by
      rw [List.filter_eq_nil_iff]
      intro e he
      intro hP
      rcases Bool.and_eq_true_iff.mp hP with ⟨h1, h2⟩
      exact hclean e he ⟨by simpa using h1, h2⟩
    have hchain : List.Chain'
        (fun a b : Entry => leStr a.sk b.sk = true)
        (ins.map (msgEntryOf sid tenant user)) := by
      refine List.Pairwise.chain' ?_
      refine List.Pairwise.map _ ?_ hord
      intro a b hab
      show leStr (inSK sid a) (inSK sid b) = true
      rw [leStr, ltStr_asymm hab]
      rfl
    show (List.map (fun e => parseMsg e.attrs)
      ((sortAsc (List.filter
          (fun e => e.pk == sessionPK tenant user && isPre (msgPre sid) e.sk)
          (runAppends sid tenant user ins tbl0))).take limit)) =
      ins.map (expectedMsg sid tenant user)
    rw [filter_after_run sid tenant user ins tbl0 hfresh hord, hfil,
      List.nil_append, sortAsc_of_chain _ hchain,
      List.take_of_length_le (by simpa using hlim), List.map_map]
    rfl
  · intro tbl putOk updOk i h
    cases putOk with
    | false => rfl
    | true =>
      exfalso
      cases updOk with
      | false =>
        rw [show (add_message true false sid i.role i.content tenant user
            i.metadata i.nowMs i.hash8 tbl).2 =
          putItem (sessionPK tenant user) (inSK sid i)
            (msgItem sid tenant user i.role i.content i.metadata i.nowMs
              i.hash8) tbl from rfl] at h
        rw [getItem_putItem_self] at h
        exact Option.noConfusion h
      | true =>
        rw [show (add_message true true sid i.role i.content tenant user
            i.metadata i.nowMs i.hash8 tbl).2 =
          (updateItem (sessionPK tenant user) (sessionSK sid)
            (addMessageOps i.nowMs)
            (putItem (sessionPK tenant user) (inSK sid i)
              (msgItem sid tenant user i.role i.content i.metadata i.nowMs
                i.hash8) tbl)).1 from rfl] at h
        rw [updateItem_frame _ _ _ _ _ _
          (by rintro ⟨-, h2⟩
              exact msgSK_ne_sessionSK sid (message_id i.nowMs i.hash8) sid h2)] at h
        rw [getItem_putItem_self] at h
        exact Option.noConfusion h

/-- Witness for `append_messages_count_and_order`: two appends (a text
message and a block-list message) on a fresh session leave
`message_count = 2` and `get_messages` returns exactly the two records in
append order. -/
theorem append_messages_count_and_order_witness :
    (getItem (sessionPK "t".toList "u".toList) (sessionSK "s1".toList)
        (runAppends "s1".toList "t".toList "u".toList
          [⟨1000, "aa".toList, "user".toList, Content.text "hi".toList, none⟩,
           ⟨2000, "bb".toList, "assistant".toList,
             Content.blocks ["x".toList], none⟩]
          [⟨sessionPK "t".toList "u".toList, sessionSK "s1".toList,
            [("message_count".toList, Val.num 0)]⟩])).bind
      (getAttr "message_count".toList) = some (Val.num 2) ∧
    get_messages true "s1".toList "t".toList "u".toList 100 none
        (runAppends "s1".toList "t".toList "u".toList
          [⟨1000, "aa".toList, "user".toList, Content.text "hi".toList, none⟩,
           ⟨2000, "bb".toList, "assistant".toList,
             Content.blocks ["x".toList], none⟩]
          [⟨sessionPK "t".toList "u".toList, sessionSK "s1".toList,
            [("message_count".toList, Val.num 0)]⟩]) =
      List.map (expectedMsg "s1".toList "t".toList "u".toList)
        [⟨1000, "aa".toList, "user".toList, Content.text "hi".toList, none⟩,
         ⟨2000, "bb".toList, "assistant".toList,
           Content.blocks ["x".toList], none⟩] := by
  have h := append_messages_count_and_order "s1".toList "t".toList "u".toList
    [⟨1000, "aa".toList, "user".toList, Content.text "hi".toList, none⟩,
     ⟨2000, "bb".toList, "assistant".toList, Content.blocks ["x".toList], none⟩]
    [⟨sessionPK "t".toList "u".toList, sessionSK "s1".toList,
      [("message_count".toList, Val.num 0)]⟩]
    100 (by rfl) (by decide) (by decide) (by decide) (by decide)
  exact ⟨h.1, h.2.1⟩

/-- Counterexample to C1 as stated: two messages appended in the same
millisecond (equal `timestampMs`, distinct content hashes) come back from
`get_messages` in sort-key order — here the reverse of the append order —
because the message id falls back to the content hash under a clock tie. -/
theorem append_order_tie_counterexample :
    get_messages true "s1".toList "t".toList "u".toList 100 none
        (runAppends "s1".toList "t".toList "u".toList
          [⟨1000, "bb".toList, "user".toList, Content.text "first".toList, none⟩,
           ⟨1000, "aa".toList, "assistant".toList,
             Content.text "second".toList, none⟩]
          [⟨sessionPK "t".toList "u".toList, sessionSK "s1".toList,
            [("message_count".toList, Val.num 0)]⟩]) =
      [expectedMsg "s1".toList "t".toList "u".toList
        ⟨1000, "aa".toList, "assistant".toList, Content.text "second".toList, none⟩,
       expectedMsg "s1".toList "t".toList "u".toList
        ⟨1000, "bb".toList, "user".toList, Content.text "first".toList, none⟩] ∧
    [expectedMsg "s1".toList "t".toList "u".toList
      ⟨1000, "aa".toList, "assistant".toList, Content.text "second".toList, none⟩,
     expectedMsg "s1".toList "t".toList "u".toList
      ⟨1000, "bb".toList, "user".toList, Content.text "first".toList, none⟩] ≠
    List.map (expectedMsg "s1".toList "t".toList "u".toList)
      [⟨1000, "bb".toList, "user".toList, Content.text "first".toList, none⟩,
       ⟨1000, "aa".toList, "assistant".toList,
         Content.text "second".toList, none⟩] :=
  ⟨rfl, by decide⟩

end Eagle
